import Mathlib

/-!
Verification of the Peer Session Manager of the popcorn-hero application.

The Svelte frontend is embedded from the repository sources:
the `peers` stores (`src/lib/stores/peers.ts`), the connect page component
(peer-status listener, endpoint start guard, `connectToPeer`,
`disconnectPeer`), the account menu logout item
(`src/lib/components/app/media-row.svelte`) and the user store
(`src/lib/stores/user.ts`).

The Rust backend commands (`peer_start`, `peer_connect`, `peer_disconnect`,
`peer_generate_ticket`), the ticket codec and the backend roster store are
not among the frontend sources; definitions that stand in for them are
modelled from the specification and say so in their doc comments.
-/

set_option autoImplicit false

namespace PopcornHero

/-- `PeerInfo` from `src/lib/stores/peers.ts`: one roster record, keyed by
`node_id`. -/
structure PeerInfo where
  node_id : String
  username : String
  online : Bool
  rtt_ms : Option Float
  last_seen : Option Nat

/-- `UserProfile` from `src/lib/stores/user.ts`. -/
structure UserProfile where
  id : String
  username : String
  created_at : String

/-- The frontend store state relevant to the peer session: the `currentUser`
store, the `peers` roster store, the `isPeerEndpointRunning` flag and the
`localNodeId` store. -/
structure AppState where
  currentUser : Option UserProfile
  peers : List PeerInfo
  isPeerEndpointRunning : Bool
  localNodeId : Option String

/-- The peer-status listener of the connect page: on every `peer-status`
event it runs `peers.set(event.payload.peers)`, replacing the roster store
content with the pushed list wholesale. -/
def onPeerStatus (s : AppState) (pushed : List PeerInfo) : AppState :=
  { s with peers := pushed }

/-- The logout menu item of `media-row.svelte`: its click handler is
`() => currentUser.set(null)` and nothing else; no other subscriber of
`currentUser` mutates the peer stores or calls the backend on logout. -/
def logoutClick (s : AppState) : AppState :=
  { s with currentUser := none }

/-- The endpoint lifecycle state visible to the frontend: the
`isPeerEndpointRunning` flag and the `localNodeId` store. -/
structure EndpointState where
  running : Bool
  nodeId : Option String

/-- The endpoint start guard of the connect page `onMount`: when the
endpoint is already running the `peer_start` call is skipped entirely;
otherwise `peer_start` is invoked and, on success, `localNodeId` is set and
the running flag raised, while on failure only a warning is logged and the
lifecycle state is left as it was.  The separate `peer_list` refresh does
not touch this state. -/
def startEndpoint (s : EndpointState) (bindResult : Except String String) :
    EndpointState :=
  if s.running then s
  else
    match bindResult with
    | Except.ok nid => { running := true, nodeId := some nid }
    | Except.error _ => s

/-- The whitespace class used by the JavaScript `String.prototype.trim`
(restricted to the characters that occur in practice: space, tab, line and
form feeds, carriage return, vertical tab, no-break space). -/
def isJsWhitespace (c : Char) : Bool :=
  decide (c = ' ' ∨ c = '\t' ∨ c = '\n' ∨ c = '\r' ∨ c = '\x0B' ∨
    c = '\x0C' ∨ c = ' ')

/-- JavaScript `String.prototype.trim`: strip leading and trailing
whitespace. -/
def jsTrim (s : String) : String :=
  String.mk (((s.data.dropWhile isJsWhitespace).reverse.dropWhile
    isJsWhitespace).reverse)

/-- The local state of the connect page that `connectToPeer` reads or
writes: the two input fields, the `isConnecting` flag and the `peers`
store. -/
structure ConnectPageState where
  remoteTicket : String
  remoteUsername : String
  isConnecting : Bool
  peers : List PeerInfo

/-- The display name `connectToPeer` sends to the backend:
`remoteUsername.trim() || "Unknown"`. -/
def connectUsername (remoteUsername : String) : String :=
  if jsTrim remoteUsername = "" then "Unknown" else jsTrim remoteUsername

/-- `connectToPeer` of the connect page.  It returns the state after the
handler completes together with the `peer_connect` call it issued, if any
(ticket string and username arguments).  An empty or whitespace-only ticket
field returns before anything happens; otherwise the backend is invoked
with the trimmed ticket and the
computed username, the input fields are cleared on success, and
`isConnecting` ends false either way (the `finally` block).  The handler
never writes the `peers` store itself. -/
def connectToPeer (s : ConnectPageState) (backendResult : Except String PeerInfo) :
    ConnectPageState × Option (String × String) :=
  if jsTrim s.remoteTicket = "" then (s, none)
  else
    let call := (jsTrim s.remoteTicket, connectUsername s.remoteUsername)
    match backendResult with
    | Except.ok _ =>
        ({ s with remoteTicket := "", remoteUsername := "", isConnecting := false },
          some call)
    | Except.error _ => ({ s with isConnecting := false }, some call)

/-- Sample roster records used for concrete scenarios. -/
def recA : PeerInfo :=
  { node_id := "nodeA", username := "alice", online := true, rtt_ms := none,
    last_seen := some 100 }

def recB : PeerInfo :=
  { node_id := "nodeB", username := "bob", online := true, rtt_ms := none,
    last_seen := some 200 }

def recC : PeerInfo :=
  { node_id := "nodeC", username := "carol", online := false, rtt_ms := none,
    last_seen := none }

/-- A concrete logged-in state with a running endpoint and one roster
entry. -/
def loggedInState : AppState :=
  { currentUser := some { id := "u1", username := "alice", created_at := "2025-01-01" }
  , peers := [recA]
  , isPeerEndpointRunning := true
  , localNodeId := some "nodeL" }

/-- C1: handling a status push replaces the roster wholesale with exactly
the pushed records: every pushed record is present afterwards, every
identity absent from the push is gone, whatever the roster held before;
in particular roster `[A, B]` plus a push of `[B, C]` yields exactly
`[B, C]`. -/
theorem peer_status_push_replaces_roster (s : AppState) (pushed : List PeerInfo) :
    (onPeerStatus s pushed).peers = pushed ∧
    (∀ r ∈ pushed, r ∈ (onPeerStatus s pushed).peers) ∧
    (∀ i, i ∉ pushed.map PeerInfo.node_id →
      i ∉ ((onPeerStatus s pushed).peers.map PeerInfo.node_id)) ∧
    (onPeerStatus { s with peers := [recA, recB] } [recB, recC]).peers
      = [recB, recC] := by
  refine ⟨rfl, ?_, ?_, rfl⟩
  · intro r hr
    simpa [onPeerStatus] using hr
  · intro i hi
    simpa [onPeerStatus] using hi

/-- C4: the start guard is idempotent: a start while the endpoint is
already running changes nothing (the existing identity stays observable in
`localNodeId`), and after a successful start the endpoint is running and a
second start is a no-op, so both calls observe the same identity. -/
theorem start_guard_idempotent (s : EndpointState)
    (r₁ r₂ : Except String String) :
    (s.running = true → startEndpoint s r₁ = s) ∧
    (∀ n : String,
      (startEndpoint s (Except.ok n)).running = true ∧
      startEndpoint (startEndpoint s (Except.ok n)) r₂
        = startEndpoint s (Except.ok n)) := by
  constructor
  · intro h
    simp [startEndpoint, h]
  · intro n
    by_cases h : s.running
    · simp [startEndpoint, h]
    · simp [startEndpoint, h]

/-- C7 counterexample: from a logged-in state with a running endpoint and a
non-empty roster, the logout click neither clears the roster store nor
stops the endpoint. -/
theorem logout_counterexample :
    ¬ ((logoutClick loggedInState).peers = [] ∧
       (logoutClick loggedInState).isPeerEndpointRunning = false) := by
  simp [logoutClick, loggedInState]

/-- C7 amended: the logout click only resets the current user to `null`;
the roster store, the endpoint running flag and the local node id are left
unchanged (no stop is issued and the roster is not cleared). -/
theorem logout_only_clears_user (s : AppState) :
    (logoutClick s).currentUser = none ∧
    (logoutClick s).peers = s.peers ∧
    (logoutClick s).isPeerEndpointRunning = s.isPeerEndpointRunning ∧
    (logoutClick s).localNodeId = s.localNodeId := by
  simp [logoutClick]

lemma all_dropWhile_eq_all (p : Char → Bool) (l : List Char) :
    (l.dropWhile p).all p = l.all p := by
  induction l with
  | nil => rfl
  | cons a t ih =>
    by_cases h : p a
    · simp [List.dropWhile_cons, h, ih]
    · simp [List.dropWhile_cons, h]

lemma jsTrim_eq_empty_iff (s : String) :
    jsTrim s = "" ↔ s.data.all isJsWhitespace = true := by
  unfold jsTrim
  constructor
  · intro h
    have h0 : (((s.data.dropWhile isJsWhitespace).reverse.dropWhile
        isJsWhitespace).reverse) = ([] : List Char) := by
      have := congrArg String.data h
      simpa using this
    have h1 : ((s.data.dropWhile isJsWhitespace).reverse.dropWhile
        isJsWhitespace) = ([] : List Char) := by
      simpa using h0
    have h2 : ((s.data.dropWhile isJsWhitespace).reverse).all isJsWhitespace
        = true := by
      rw [← all_dropWhile_eq_all isJsWhitespace, h1]
      rfl
    have h3 : (s.data.dropWhile isJsWhitespace).all isJsWhitespace = true := by
      simpa using h2
    rw [← all_dropWhile_eq_all isJsWhitespace]
    exact h3
  · intro h
    have h1 : (s.data.dropWhile isJsWhitespace).all isJsWhitespace = true := by
      rw [all_dropWhile_eq_all]; exact h
    have h2 : s.data.dropWhile isJsWhitespace = [] := by
      by_cases hd : s.data.dropWhile isJsWhitespace = []
      · exact hd
      · exfalso
        obtain ⟨a, t, he⟩ := List.exists_cons_of_ne_nil hd
        have hna : isJsWhitespace a = false := by
          have := List.head?_dropWhile_not isJsWhitespace s.data
          rw [he] at this
          simpa using this
        rw [he] at h1
        simp [List.all_cons, hna] at h1
    simp [h2]

/-- C10: an empty or whitespace-only remote ticket field makes the connect
action a complete no-op: no backend call is issued and the page state is
returned unchanged. -/
theorem connect_blank_ticket_noop (s : ConnectPageState)
    (r : Except String PeerInfo) (h : s.remoteTicket.data.all isJsWhitespace = true) :
    connectToPeer s r = (s, none) := by
  unfold connectToPeer
  rw [if_pos ((jsTrim_eq_empty_iff s.remoteTicket).mpr h)]

/-- A concrete connect-page state with a whitespace-only ticket field. -/
def blankTicketState : ConnectPageState :=
  { remoteTicket := "   ", remoteUsername := "bob", isConnecting := false,
    peers := [] }

/-- C10 witness: a whitespace-only ticket field on a concrete state issues
no call and changes nothing. -/
theorem connect_blank_ticket_noop_witness :
    connectToPeer blankTicketState (Except.error "e") = (blankTicketState, none) :=
  connect_blank_ticket_noop _ _ (by decide)

/-- C9: when a connect request is issued (non-blank ticket field), an empty
or whitespace-only username field is replaced by the display name
`"Unknown"`, and otherwise the trimmed username is sent. -/
theorem connect_username_default (s : ConnectPageState)
    (r : Except String PeerInfo)
    (h : ¬ s.remoteTicket.data.all isJsWhitespace = true) :
    (s.remoteUsername.data.all isJsWhitespace = true →
      (connectToPeer s r).2 = some (jsTrim s.remoteTicket, "Unknown")) ∧
    (¬ s.remoteUsername.data.all isJsWhitespace = true →
      (connectToPeer s r).2
        = some (jsTrim s.remoteTicket, jsTrim s.remoteUsername)) := by
  have ht : ¬ jsTrim s.remoteTicket = "" := fun hc =>
    h ((jsTrim_eq_empty_iff s.remoteTicket).mp hc)
  constructor
  · intro hw
    have hu : jsTrim s.remoteUsername = "" :=
      (jsTrim_eq_empty_iff s.remoteUsername).mpr hw
    cases r <;> simp [connectToPeer, ht, connectUsername, hu]
  · intro hw
    have hu : ¬ jsTrim s.remoteUsername = "" := fun hc =>
      hw ((jsTrim_eq_empty_iff s.remoteUsername).mp hc)
    cases r <;> simp [connectToPeer, ht, connectUsername, hu]

/-- A concrete connect-page state with ticket `"t"` and a whitespace-only
username field. -/
def blankUsernameState : ConnectPageState :=
  { remoteTicket := "t", remoteUsername := " ", isConnecting := false,
    peers := [] }

/-- C9 witness: with ticket `"t"` and whitespace-only username, the issued
call carries the display name `"Unknown"`. -/
theorem connect_username_default_witness :
    (connectToPeer blankUsernameState (Except.ok recA)).2
      = some ("t", "Unknown") := by
  have h := (connect_username_default blankUsernameState (Except.ok recA)
    (by decide)).1 (by decide)
  rw [h]
  rfl

/-- Modelled from the spec: the backend Roster Store operation
`upsert(record)` — insert or overwrite the single entry keyed by the
record identity.  The Rust backend that holds the authoritative roster is
not among the frontend sources. -/
def rosterUpsert (r : PeerInfo) (l : List PeerInfo) : List PeerInfo :=
  if ∃ p ∈ l, p.node_id = r.node_id then
    l.map fun p => if p.node_id = r.node_id then r else p
  else l ++ [r]

/-- Modelled from the spec: the backend Roster Store operation
`remove(identity)` — delete the entry if present, no-op otherwise. -/
def rosterRemove (id : String) (l : List PeerInfo) : List PeerInfo :=
  l.filter fun p => decide (p.node_id ≠ id)

/-- Modelled from the spec: the backend Roster Store operation
`apply_snapshot(records)` — full-replace merge: the new store is built
from the snapshot alone, every identity of the snapshot overwriting or
inserting its record, identities absent from the snapshot dropped. -/
def applySnapshot (records : List PeerInfo) (_store : List PeerInfo) :
    List PeerInfo :=
  records.foldl (fun acc r => rosterUpsert r acc) []

/-- The identities held by a roster, in store order. -/
def rosterIds (l : List PeerInfo) : List String := l.map PeerInfo.node_id

lemma rosterIds_upsert_of_mem (r : PeerInfo) (l : List PeerInfo)
    (h : ∃ p ∈ l, p.node_id = r.node_id) :
    rosterIds (rosterUpsert r l) = rosterIds l := by
  simp only [rosterUpsert, if_pos h, rosterIds, List.map_map]
  apply List.map_congr_left
  intro p _
  by_cases hp : p.node_id = r.node_id
  · simp [Function.comp, hp]
  · simp [Function.comp, hp]

lemma rosterIds_upsert_of_not_mem (r : PeerInfo) (l : List PeerInfo)
    (h : ¬ ∃ p ∈ l, p.node_id = r.node_id) :
    rosterIds (rosterUpsert r l) = rosterIds l ++ [r.node_id] := by
  simp [rosterUpsert, if_neg h, rosterIds]

lemma nodup_rosterUpsert (r : PeerInfo) (l : List PeerInfo)
    (h : (rosterIds l).Nodup) : (rosterIds (rosterUpsert r l)).Nodup := by
  by_cases hm : ∃ p ∈ l, p.node_id = r.node_id
  · rw [rosterIds_upsert_of_mem r l hm]
    exact h
  · rw [rosterIds_upsert_of_not_mem r l hm]
    have hni : r.node_id ∉ rosterIds l := by
      intro hmem
      simp only [rosterIds, List.mem_map] at hmem
      obtain ⟨p, hp, hid⟩ := hmem
      exact hm ⟨p, hp, hid⟩
    rw [List.nodup_append]
    refine ⟨h, List.nodup_singleton _, ?_⟩
    intro a ha hb
    rw [List.mem_singleton] at hb
    exact hni (hb ▸ ha)

lemma nodup_rosterRemove (id : String) (l : List PeerInfo)
    (h : (rosterIds l).Nodup) : (rosterIds (rosterRemove id l)).Nodup := by
  have hs : List.Sublist (rosterIds (rosterRemove id l)) (rosterIds l) :=
    (List.filter_sublist l).map PeerInfo.node_id
  exact h.sublist hs

lemma nodup_foldl_upsert (records : List PeerInfo) (acc : List PeerInfo)
    (h : (rosterIds acc).Nodup) :
    (rosterIds (records.foldl (fun a r => rosterUpsert r a) acc)).Nodup := by
  induction records generalizing acc with
  | nil => simpa using h
  | cons r t ih =>
    simp only [List.foldl_cons]
    exact ih _ (nodup_rosterUpsert r acc h)

lemma nodup_applySnapshot (records store : List PeerInfo) :
    (rosterIds (applySnapshot records store)).Nodup :=
  nodup_foldl_upsert records [] (by simp [rosterIds])

/-- A single Roster Store mutation, as named by the specification. -/
inductive RosterOp where
  | upsert (r : PeerInfo)
  | snapshot (records : List PeerInfo)
  | remove (id : String)

/-- Apply one Roster Store mutation. -/
def applyOp (store : List PeerInfo) : RosterOp → List PeerInfo
  | RosterOp.upsert r => rosterUpsert r store
  | RosterOp.snapshot records => applySnapshot records store
  | RosterOp.remove id => rosterRemove id store

/-- Run a sequence of Roster Store mutations from the empty store. -/
def runOps (ops : List RosterOp) : List PeerInfo :=
  ops.foldl applyOp []

lemma nodup_foldl_applyOp (ops : List RosterOp) (store : List PeerInfo)
    (h : (rosterIds store).Nodup) :
    (rosterIds (ops.foldl applyOp store)).Nodup := by
  induction ops generalizing store with
  | nil => simpa using h
  | cons op t ih =>
    simp only [List.foldl_cons]
    cases op with
    | upsert r => exact ih _ (nodup_rosterUpsert r store h)
    | snapshot records => exact ih _ (nodup_applySnapshot records store)
    | remove id => exact ih _ (nodup_rosterRemove id store h)

/-- C6: after every finite sequence of `upsert`, `apply_snapshot` and
`remove` operations starting from the empty roster, no two records share
an identity. -/
theorem roster_uniqueness (ops : List RosterOp) :
    (rosterIds (runOps ops)).Nodup :=
  nodup_foldl_applyOp ops [] (by simp [rosterIds])

/-- Modelled from the spec: `disconnect(identity)` — the backend
`peer_disconnect` requests transport teardown for the identity and then
unconditionally removes it from the Roster Store, regardless of whether
the teardown reported an error.  The backend command is not among the
frontend sources; the frontend `disconnectPeer` only invokes it and logs
failures. -/
def peerDisconnect (roster : List PeerInfo) (id : String)
    (_teardown : Except Unit Unit) : List PeerInfo :=
  rosterRemove id roster

/-- C3: after a disconnect the roster no longer contains the identity,
whatever the transport teardown reported, and disconnecting the same
identity again succeeds and changes nothing (idempotent). -/
theorem disconnect_removes_always (roster : List PeerInfo) (id : String)
    (td td₂ : Except Unit Unit) :
    id ∉ rosterIds (peerDisconnect roster id td) ∧
    (∀ p ∈ peerDisconnect roster id td, p.node_id ≠ id) ∧
    peerDisconnect (peerDisconnect roster id td) id td₂
      = peerDisconnect roster id td := by
  refine ⟨?_, ?_, ?_⟩
  · intro hmem
    simp [peerDisconnect, rosterRemove, rosterIds, List.mem_map,
      List.mem_filter] at hmem
    obtain ⟨p, ⟨_, hne⟩, hid⟩ := hmem
    exact hne hid
  · intro p hp
    simp only [peerDisconnect, rosterRemove, List.mem_filter,
      decide_eq_true_eq] at hp
    exact hp.2
  · simp [peerDisconnect, rosterRemove, List.filter_filter]

/-- Modelled from the spec: the failure of the Ticket Codec decode. -/
inductive TicketError where
  | malformedTicket

/-- Split a character list on a separator character: a list with no
separator yields one field, each separator opens a new field. -/
def splitOnChar (c : Char) : List Char → List (List Char)
  | [] => [[]]
  | a :: rest =>
    if a = c then [] :: splitOnChar c rest
    else
      match splitOnChar c rest with
      | [] => [[a]]
      | grp :: grps => (a :: grp) :: grps

lemma splitOnChar_of_not_mem (c : Char) (l : List Char) (h : c ∉ l) :
    splitOnChar c l = [l] := by
  induction l with
  | nil => rfl
  | cons a t ih =>
    have ha : ¬ a = c := fun hc => h (hc ▸ List.mem_cons_self a t)
    have ht : c ∉ t := fun hc => h (List.mem_cons_of_mem a hc)
    simp [splitOnChar, ha, ih ht]

lemma splitOnChar_append (c : Char) (l₁ l₂ : List Char) (h : c ∉ l₁) :
    splitOnChar c (l₁ ++ c :: l₂) = l₁ :: splitOnChar c l₂ := by
  induction l₁ with
  | nil => simp [splitOnChar]
  | cons a t ih =>
    have ha : ¬ a = c := fun hc => h (hc ▸ List.mem_cons_self a t)
    have ht : c ∉ t := fun hc => h (List.mem_cons_of_mem a hc)
    simp [splitOnChar, ha, ih ht]

/-- Join hint fields with comma separators. -/
def joinHints : List (List Char) → List Char
  | [] => []
  | [x] => x
  | x :: rest => x ++ ',' :: joinHints rest

lemma not_mem_joinHints (c : Char) (hc : ¬ c = ',') (hs : List (List Char))
    (h : ∀ x ∈ hs, c ∉ x) : c ∉ joinHints hs := by
  induction hs with
  | nil => simp [joinHints]
  | cons a t ih =>
    cases t with
    | nil => simpa [joinHints] using h a (by simp)
    | cons b ts =>
      intro hmem
      simp [joinHints] at hmem
      rcases hmem with h1 | h2 | h3
      · exact h a (by simp) h1
      · exact hc h2
      · exact ih (fun x hx => h x (List.mem_cons_of_mem a hx)) h3

lemma splitOnChar_joinHints (hs : List (List Char)) (hne : ¬ hs = [])
    (hc : ∀ x ∈ hs, ',' ∉ x) :
    splitOnChar ',' (joinHints hs) = hs := by
  induction hs with
  | nil => exact absurd rfl hne
  | cons a t ih =>
    cases t with
    | nil =>
      simp only [joinHints]
      exact splitOnChar_of_not_mem ',' a (hc a (by simp))
    | cons b ts =>
      simp only [joinHints]
      rw [splitOnChar_append ',' a (joinHints (b :: ts)) (hc a (by simp))]
      rw [ih (by simp) (fun x hx => hc x (List.mem_cons_of_mem a hx))]

/-- Modelled from the spec: the integrity check carried inside a ticket;
a simple parity check stands in for the checksum of the real codec. -/
def checksumChar (l : List Char) : Char :=
  if (l.foldl (fun a c => a + c.toNat) 0) % 2 = 0 then 'E' else 'O'

lemma checksumChar_ne_colon (l : List Char) : ¬ checksumChar l = ':' := by
  unfold checksumChar
  split <;> decide

/-- The structural token marker of the modelled ticket format. -/
def ticketTag : List Char := ['p', 'h', '1']

/-- Modelled from the spec: the Ticket Codec `encode` — a ticket is an
opaque serializable string wrapping the peer identity plus its
reachability hints; the codec of the Rust backend is not among the
frontend sources.  The model serializes tag, identity, comma-joined hints
and a checksum as colon-separated fields. -/
def encodeTicket (id : String) (hints : List String) : String :=
  String.mk (ticketTag ++ ':' :: (id.data ++ ':' ::
    (joinHints (hints.map String.data) ++ ':' ::
      [checksumChar (id.data ++ joinHints (hints.map String.data))])))

/-- Modelled from the spec: the Ticket Codec `decode` — fails with
`MalformedTicket` when the string is not a structurally valid token
(wrong shape, missing fields, checksum mismatch); otherwise yields the
peer identity and the reachability hints.  Decoding mutates nothing. -/
def decodeTicket (t : String) : Except TicketError (String × List String) :=
  match splitOnChar ':' t.data with
  | [tag, idL, hintsL, ck] =>
    if tag = ticketTag ∧ ¬ idL = [] ∧ ck = [checksumChar (idL ++ hintsL)] then
      Except.ok (String.mk idL, (splitOnChar ',' hintsL).map String.mk)
    else Except.error TicketError.malformedTicket
  | _ => Except.error TicketError.malformedTicket

/-- Structural validity of a ticket string, independent of `decodeTicket`:
the string splits into exactly the tagged fields with a matching
checksum and a non-empty identity. -/
def wellFormedTicket (t : String) : Bool :=
  match splitOnChar ':' t.data with
  | [tag, idL, hintsL, ck] =>
    decide (tag = ticketTag ∧ ¬ idL = [] ∧ ck = [checksumChar (idL ++ hintsL)])
  | _ => false

lemma decode_error_of_not_wellFormed (t : String)
    (h : wellFormedTicket t = false) :
    decodeTicket t = Except.error TicketError.malformedTicket := by
  unfold decodeTicket
  unfold wellFormedTicket at h
  split
  · next tag idL hintsL ck heq =>
      rw [heq] at h
      exact if_neg (of_decide_eq_false h)
  · rfl

lemma decodeTicket_eval (t : String) (tag idL hintsL ck : List Char)
    (hsplit : splitOnChar ':' t.data = [tag, idL, hintsL, ck]) :
    decodeTicket t =
      if tag = ticketTag ∧ ¬ idL = [] ∧ ck = [checksumChar (idL ++ hintsL)]
      then Except.ok (String.mk idL, (splitOnChar ',' hintsL).map String.mk)
      else Except.error TicketError.malformedTicket := by
  unfold decodeTicket
  rw [hsplit]

/-- A valid codec input: non-empty identity free of the field separator,
and a non-empty hint list whose entries are free of both separators. -/
def validTicketInput (id : String) (hints : List String) : Prop :=
  ¬ id.data = [] ∧ ':' ∉ id.data ∧ ¬ hints = [] ∧
    ∀ x ∈ hints, ':' ∉ x.data ∧ ',' ∉ x.data

/-- C5: ticket round-trip — for every valid pair of identity and
reachability hints, decoding the encoded ticket succeeds and returns the
original identity (and hints). -/
theorem ticket_round_trip (id : String) (hints : List String)
    (h : validTicketInput id hints) :
    decodeTicket (encodeTicket id hints) = Except.ok (id, hints) := by
  obtain ⟨hid, hcol, hne, hx⟩ := h
  have hdata : (encodeTicket id hints).data
      = ticketTag ++ ':' :: (id.data ++ ':' ::
        (joinHints (hints.map String.data) ++ ':' ::
          [checksumChar (id.data ++ joinHints (hints.map String.data))])) := rfl
  have hcolJ : ':' ∉ joinHints (hints.map String.data) := by
    refine not_mem_joinHints ':' (by decide) _ ?_
    intro x hxm
    obtain ⟨s, hs, rfl⟩ := List.mem_map.mp hxm
    exact (hx s hs).1
  have hckc : ':' ∉
      [checksumChar (id.data ++ joinHints (hints.map String.data))] := by
    simp only [List.mem_singleton]
    intro hh
    exact checksumChar_ne_colon _ hh.symm
  have hsplit : splitOnChar ':' (encodeTicket id hints).data
      = [ticketTag, id.data, joinHints (hints.map String.data),
        [checksumChar (id.data ++ joinHints (hints.map String.data))]] := by
    rw [hdata]
    rw [splitOnChar_append ':' ticketTag _ (by decide)]
    rw [splitOnChar_append ':' id.data _ hcol]
    rw [splitOnChar_append ':' _ _ hcolJ]
    rw [splitOnChar_of_not_mem ':' _ hckc]
  rw [decodeTicket_eval _ _ _ _ _ hsplit]
  rw [if_pos ⟨rfl, hid, rfl⟩]
  rw [splitOnChar_joinHints (hints.map String.data) (by simpa using hne)
    (fun x hxm => by
      obtain ⟨s, hs, rfl⟩ := List.mem_map.mp hxm
      exact (hx s hs).2)]
  have hmk : ∀ s : String, String.mk s.data = s := fun s => rfl
  have hmapmk : ∀ ls : List String,
      List.map (String.mk ∘ String.data) ls = ls := by
    intro ls
    induction ls with
    | nil => rfl
    | cons a t iht =>
      simp only [List.map_cons, iht]
      rfl
  simp only [List.map_map, hmk, hmapmk]

/-- C5 witness: a concrete identity and hint pair round-trips. -/
theorem ticket_round_trip_witness :
    decodeTicket (encodeTicket "abc" ["h1", "h2"])
      = Except.ok ("abc", ["h1", "h2"]) :=
  ticket_round_trip "abc" ["h1", "h2"] (by unfold validTicketInput; decide)

/-- Modelled from the spec: the failures of `connect`. -/
inductive ConnectError where
  | malformedTicket
  | unreachable

/-- Modelled from the spec: the record `connect` upserts on success:
the decoded identity, the supplied display name, online true, last seen
now. -/
def connectRecord (id username : String) (now : Nat) : PeerInfo :=
  { node_id := id, username := username, online := true, rtt_ms := none,
    last_seen := some now }

/-- Modelled from the spec: the backend `peer_connect` orchestration —
decode the ticket (failing with `MalformedTicket` and touching nothing on
an invalid string), ask the transport collaborator for a session (failing
with `Unreachable` and touching nothing on transport error), and on
success upsert the connect record into the Roster Store.  The transport
outcome is passed in as an oracle argument. -/
def peerConnect (roster : List PeerInfo) (ticketStr username : String)
    (now : Nat) (transport : Except Unit Unit) :
    List PeerInfo × Except ConnectError PeerInfo :=
  match decodeTicket ticketStr with
  | Except.error _ => (roster, Except.error ConnectError.malformedTicket)
  | Except.ok (id, _hints) =>
    match transport with
    | Except.error _ => (roster, Except.error ConnectError.unreachable)
    | Except.ok _ =>
      (rosterUpsert (connectRecord id username now) roster,
        Except.ok (connectRecord id username now))

/-- C2: connecting with a ticket string that is not structurally valid
fails with `MalformedTicket` and returns the roster exactly as it was. -/
theorem connect_malformed_roster_untouched (roster : List PeerInfo)
    (t u : String) (now : Nat) (tr : Except Unit Unit)
    (h : wellFormedTicket t = false) :
    peerConnect roster t u now tr
      = (roster, Except.error ConnectError.malformedTicket) := by
  unfold peerConnect
  rw [decode_error_of_not_wellFormed t h]

/-- C2 witness: the scenario of the spec — connecting with the string
`"not-a-valid-ticket"` fails with `MalformedTicket` and the roster is
unchanged. -/
theorem connect_malformed_witness :
    peerConnect [recA] "not-a-valid-ticket" "x" 0 (Except.ok ())
      = ([recA], Except.error ConnectError.malformedTicket) :=
  connect_malformed_roster_untouched [recA] "not-a-valid-ticket" "x" 0
    (Except.ok ()) (by decide)

lemma mem_rosterUpsert (r : PeerInfo) (l : List PeerInfo) :
    r ∈ rosterUpsert r l := by
  unfold rosterUpsert
  split
  · next hm =>
      obtain ⟨p, hp, hpid⟩ := hm
      exact List.mem_map.mpr ⟨p, hp, by simp [hpid]⟩
  · exact List.mem_append.mpr (Or.inr (List.mem_singleton.mpr rfl))

lemma rosterUpsert_unique_id (r : PeerInfo) (l : List PeerInfo) :
    ∀ p ∈ rosterUpsert r l, p.node_id = r.node_id → p = r := by
  unfold rosterUpsert
  split
  · next hm =>
      intro p hp hpid
      obtain ⟨q, hq, hfq⟩ := List.mem_map.mp hp
      by_cases hqid : q.node_id = r.node_id
      · rw [if_pos hqid] at hfq
        exact hfq.symm
      · rw [if_neg hqid] at hfq
        subst hfq
        exact absurd hpid hqid
  · next hm =>
      intro p hp hpid
      rcases List.mem_append.mp hp with hpl | hpr
      · exact absurd ⟨p, hpl, hpid⟩ hm
      · exact List.mem_singleton.mp hpr

/-- C8: for a well-formed ticket whose transport connection succeeds,
connect upserts the record with the decoded identity, the given display
name, online true and last seen now; an existing record with that
identity is overwritten (display name and online state) and no duplicate
entry is created. -/
theorem connect_success_upserts (roster : List PeerInfo) (t u : String)
    (now : Nat) (id : String) (hints : List String)
    (hdec : decodeTicket t = Except.ok (id, hints)) :
    (peerConnect roster t u now (Except.ok ())).1
      = rosterUpsert (connectRecord id u now) roster ∧
    connectRecord id u now ∈ (peerConnect roster t u now (Except.ok ())).1 ∧
    (∀ p ∈ (peerConnect roster t u now (Except.ok ())).1,
      p.node_id = id → p = connectRecord id u now) ∧
    ((rosterIds roster).Nodup →
      (rosterIds (peerConnect roster t u now (Except.ok ())).1).Nodup) := by
  have hfst : (peerConnect roster t u now (Except.ok ())).1
      = rosterUpsert (connectRecord id u now) roster := by
    unfold peerConnect
    rw [hdec]
  refine ⟨hfst, ?_, ?_, ?_⟩
  · rw [hfst]
    exact mem_rosterUpsert _ _
  · rw [hfst]
    intro p hp hpid
    exact rosterUpsert_unique_id _ _ p hp hpid
  · rw [hfst]
    intro hn
    exact nodup_rosterUpsert _ _ hn

/-- C8 witness: connecting with a concrete encoded ticket puts the connect
record into the roster. -/
theorem connect_success_witness :
    connectRecord "abc" "dave" 5 ∈
      (peerConnect [recB] (encodeTicket "abc" ["h1"]) "dave" 5
        (Except.ok ())).1 :=
  (connect_success_upserts [recB] (encodeTicket "abc" ["h1"]) "dave" 5 "abc"
    ["h1"] (by rfl)).2.1

end PopcornHero
